import Mathlib

/-!
Shallow embedding of the myipms-table-scrape system: the URL partitioner
(`url_generator.js`), the chunk worker (`worker_script.js`) and the data
consolidator (`consolidate_data.js`), together with verification of the
specification's testable properties.
-/

/-! ## JavaScript-style helpers -/

/-- JS `x || fallback` where `x` is a string-or-undefined (`Option String`):
`undefined` and the empty string are falsy. -/
def jsOr (x : Option String) (fallback : String) : String :=
  match x with
  | none => fallback
  | some s => if s = "" then fallback else s

/-- JS template-literal coercion of a string-or-undefined value. -/
def jsShow (x : Option String) : String :=
  match x with
  | none => "undefined"
  | some s => s

/-- Auxiliary for `collapseWs`: replace every maximal whitespace run by a
single `'-'`, as JS `.replace(/\s+/g, "-")` does.  `prevWs` records
whether the previous character belonged to a whitespace run. -/
def collapseWsAux (prevWs : Bool) : List Char → List Char
  | [] => []
  | c :: cs =>
    if c.isWhitespace then
      if prevWs then collapseWsAux true cs
      else '-' :: collapseWsAux true cs
    else
      c :: collapseWsAux false cs

/-- JS `s.replace(/\s+/g, "-")`. -/
def collapseWs (s : String) : String :=
  String.mk (collapseWsAux false s.data)

/-- JS `String.prototype.trim`: strip leading and trailing whitespace. -/
def jsTrim (s : String) : String :=
  String.mk (((s.data.dropWhile Char.isWhitespace).reverse.dropWhile
    Char.isWhitespace).reverse)

/-- JS `String.prototype.padStart(n, c)`. -/
def padStart (s : String) (n : Nat) (c : Char) : String :=
  if n ≤ s.length then s
  else String.mk (List.replicate (n - s.length) c) ++ s

/-- JS `a < b` on strings, char-by-char lexicographic comparison. -/
def jsStrLtChars : List Char → List Char → Bool
  | [], [] => false
  | [], _ :: _ => true
  | _ :: _, [] => false
  | a :: as, b :: bs =>
    if a < b then true
    else if b < a then false
    else jsStrLtChars as bs

/-- JS `a < b` on strings. -/
def jsStrLt (a b : String) : Bool :=
  jsStrLtChars a.data b.data

/-- JS `haystack.includes(needle)`. -/
def containsStr (haystack needle : String) : Bool :=
  decide (needle.data <:+: haystack.data)

/-! ## url_generator.js -/

/-- The page-URL template (`BASE_URL` in `url_generator.js`). -/
def BASE_URL : String :=
  "https://myip.ms/browse/sites/{page}/rankii/15000000/ipID/23.227.38.0/ipIDii/23.227.38.255"

/-- `BASE_URL.replace('{page}', page)` for one page number. -/
def makeUrl (page : Nat) : String :=
  BASE_URL.replace "{page}" (toString page)

/-- `generateUrlList`: URLs for pages `1 .. totalPages` in order. -/
def generateUrlList (totalPages : Nat) : List String :=
  (List.range totalPages).map (fun p => makeUrl (p + 1))

/-- The loop of `chunkUrls`, with explicit fuel: each iteration pushes
`urls.slice(i, i + chunkSize)` and advances `i` by `chunkSize`.  Fuel
exhaustion (`none`) models non-termination of the JS loop. -/
def chunkLoop (fuel : Nat) (urls : List String) (chunkSize : Nat)
    (i : Nat) (acc : List (List String)) : Option (List (List String)) :=
  match fuel with
  | 0 => none
  | fuel + 1 =>
    if i < urls.length then
      chunkLoop fuel urls chunkSize (i + chunkSize)
        (acc ++ [(urls.drop i).take chunkSize])
    else
      some acc

/-- `chunkUrls(urls, chunkSize)`; the fuel `urls.length + 1` is enough for
every terminating run of the JS loop (the index advances by at least one
per iteration when `chunkSize ≥ 1`). -/
def chunkUrls (urls : List String) (chunkSize : Nat) : Option (List (List String)) :=
  chunkLoop (urls.length + 1) urls chunkSize 0 []

/-- `partition(totalPages, quota)`: the composition performed by `main` in
`url_generator.js` (generate the URL list, then chunk it). -/
def partition (totalPages quota : Nat) : Option (List (List String)) :=
  chunkUrls (generateUrlList totalPages) quota

/-- Mathematical form of the chunking loop: successive `take`/`drop`. -/
def chunksOf (k : Nat) (l : List String) : List (List String) :=
  match k, l with
  | 0, _ => []
  | _ + 1, [] => []
  | k + 1, a :: l => ((a :: l).take (k + 1)) :: chunksOf (k + 1) (l.drop k)
termination_by l.length
decreasing_by
  simp only [List.length_drop, List.length_cons]
  omega

/-- Filename the Partitioner writes for the chunk at 0-based `index`
(`saveChunks` in `url_generator.js`): zero-padded to four digits. -/
def savedChunkFilename (index : Nat) : String :=
  "chunk_" ++ padStart (toString (index + 1)) 4 '0' ++ ".txt"

/-- Filename the worker reads for a given chunk identifier
(`loadUrlsFromChunk` in `worker_script.js`): no padding applied. -/
def workerChunkFilename (chunkNumber : String) : String :=
  "chunk_" ++ chunkNumber ++ ".txt"

/-! ## worker_script.js : page extraction -/

/-- One table cell as the extraction routine sees it: its own
`textContent` plus, when an anchor is present, the anchor's
`textContent` and `href`. -/
structure Cell where
  text : String
  linkText : Option String
  linkHref : Option String
deriving DecidableEq, Repr

/-- One scraped record (the object literal built in `scrapePage`). -/
structure Row where
  rank : String
  domain : String
  domainUrl : String
  ipAddress : String
  ipAddressUrl : String
  location : String
  owner : String
  ownerUrl : String
  lastUpdate : String
  sourceUrl : String
  scrapedAt : String
  uniqueId : String
deriving DecidableEq, Repr

/-- The map body of the extraction routine for the data row at 0-based
`index`, with cells `cells`, on a page whose resolved URL is `srcUrl`,
extracted at time `now`. -/
def extractRow (index : Nat) (cells : List Cell) (srcUrl now : String) : Row :=
  let rank := jsOr ((cells.get? 0).map (fun c => jsTrim c.text)) ("row-" ++ toString (index + 1))
  { rank := rank
    domain := jsOr ((cells.get? 1).map (fun c => jsTrim c.text))
      (jsOr (((cells.get? 1).bind (fun c => c.linkText)).map jsTrim) "")
    domainUrl := jsOr ((cells.get? 1).bind (fun c => c.linkHref)) ""
    ipAddress := jsOr ((cells.get? 2).map (fun c => jsTrim c.text))
      (jsOr (((cells.get? 2).bind (fun c => c.linkText)).map jsTrim) "")
    ipAddressUrl := jsOr ((cells.get? 2).bind (fun c => c.linkHref)) ""
    location := jsOr ((cells.get? 3).map (fun c => jsTrim c.text)) ""
    owner := jsOr ((cells.get? 4).map (fun c => jsTrim c.text))
      (jsOr (((cells.get? 4).bind (fun c => c.linkText)).map jsTrim) "")
    ownerUrl := jsOr ((cells.get? 4).bind (fun c => c.linkHref)) ""
    lastUpdate := jsOr ((cells.get? 5).map (fun c => jsTrim c.text)) ""
    sourceUrl := srcUrl
    scrapedAt := now
    uniqueId := collapseWs (rank ++ "-" ++ jsOr ((cells.get? 1).map (fun c => jsTrim c.text)) "") }

/-- The extraction routine over the table's `tr` rows: skip the header
row, map each remaining row, and filter out rows where both `domain` and
`ipAddress` are empty (JS `row.domain || row.ipAddress`). -/
def extractTable (trRows : List (List Cell)) (srcUrl now : String) : List Row :=
  (((trRows.drop 1).enum).map (fun p => extractRow p.1 p.2 srcUrl now)).filter
    (fun r => !(r.domain = "") || !(r.ipAddress = ""))

/-- State of the page after navigation: document title, resolved URL,
whether `#sites_tbl` appeared before the selector timeout, and the
table's `tr` rows. -/
structure PageState where
  title : String
  url : String
  tableFound : Bool
  trRows : List (List Cell)
deriving Repr

/-- Challenge-marker test from `scrapePage`. -/
def isChallengePage (title url : String) : Bool :=
  containsStr title "Verification" || containsStr title "CAPTCHA" ||
    containsStr url "verify" || containsStr title "Bot" ||
    containsStr title "Security Check"

/-- Login-page test from `scrapePage`. -/
def isLoginPage (title url : String) : Bool :=
  containsStr url "login" || containsStr title "Login" || containsStr title "Sign In"

/-- `scrapePage`: the navigation outcome (`Except.error` models a thrown
and caught exception) is mapped to `null` (`none`) on any error,
challenge page, login page or missing table, and to the extracted rows
otherwise.  The surrounding try/catch means the function always returns
normally. -/
def scrapePage (nav : Except String PageState) (now : String) : Option (List Row) :=
  match nav with
  | Except.error _ => none
  | Except.ok ps =>
    if isChallengePage ps.title ps.url then none
    else if isLoginPage ps.title ps.url then none
    else if ps.tableFound = false then none
    else some (extractTable ps.trRows ps.url now)

/-! ## worker_script.js : chunk runner -/

/-- Accumulated state of the per-URL loop in `main`. -/
structure RunResult where
  allData : List Row
  successCount : Nat
  failCount : Nat
deriving DecidableEq, Repr

/-- One iteration of the per-URL loop: `if (data && data.length > 0)`
appends the rows and counts a success, otherwise counts a failure. -/
def runStep (fetch : String → Except String PageState) (now : String)
    (acc : RunResult) (url : String) : RunResult :=
  match scrapePage (fetch url) now with
  | some data =>
    if 0 < data.length then
      { acc with allData := acc.allData ++ data, successCount := acc.successCount + 1 }
    else
      { acc with failCount := acc.failCount + 1 }
  | none => { acc with failCount := acc.failCount + 1 }

/-- The Chunk Runner: the worker's `main` loop over the chunk's URLs,
given the navigation behaviour `fetch` of the environment. -/
def runChunk (urls : List String) (fetch : String → Except String PageState)
    (now : String) : RunResult :=
  urls.foldl (runStep fetch now) ⟨[], 0, 0⟩

/-- The save block of the worker's `main`: a CSV file is written only
when `allData.length > 0`; `none` models "nothing persisted". -/
def persistedFile (chunkNumber ts : String) (r : RunResult) : Option String :=
  if 0 < r.allData.length then
    some ("data_chunk_" ++ chunkNumber ++ "_" ++ ts ++ ".csv")
  else
    none

/-! ## consolidate_data.js -/

/-- One CSV record as `csv-parser` yields it: an object whose keys are
the column headers, plus the `_source_timestamp` metadata field the
consolidator attaches (`none` models `null`/absent). -/
structure CsvRecord where
  fields : List (String × String)
  srcTimestamp : Option String
deriving DecidableEq, Repr

/-- JS property access `record.K` for a CSV column `K`. -/
def getField (r : CsvRecord) (k : String) : Option String :=
  (r.fields.find? (fun p => p.1 = k)).map Prod.snd

/-- JS truthiness of a string-or-null value. -/
def truthyOpt : Option String → Bool
  | none => false
  | some s => !(s = "")

/-- JS `a > b` on string-or-null values: lexicographic when both are
strings, false when either side is null (numeric coercion gives NaN). -/
def strGtOpt : Option String → Option String → Bool
  | some a, some b => jsStrLt b a
  | _, _ => false

/-- The deduplication key of `deduplicateData`:
`record.UniqueID || record.Rank + "-" + record.Domain`. -/
def dedupKey (r : CsvRecord) : String :=
  jsOr (getField r "UniqueID")
    (jsShow (getField r "Rank") ++ "-" ++ jsShow (getField r "Domain"))

/-- The guard of `deduplicateData`: replace the map entry when the key is
absent, or when the incoming record has a truthy timestamp and the held
record's timestamp is falsy or strictly older. -/
def shouldReplace (old : Option CsvRecord) (r : CsvRecord) : Bool :=
  match old with
  | none => true
  | some o =>
    truthyOpt r.srcTimestamp &&
      (!(truthyOpt o.srcTimestamp) || strGtOpt r.srcTimestamp o.srcTimestamp)

/-- JS `Map.prototype.get` on the insertion-ordered association list. -/
def mapGet (m : List (String × CsvRecord)) (k : String) : Option CsvRecord :=
  (m.find? (fun p => p.1 = k)).map Prod.snd

/-- JS `Map.prototype.set`: update in place when the key exists
(preserving insertion order), otherwise append. -/
def mapSet (m : List (String × CsvRecord)) (k : String) (v : CsvRecord) :
    List (String × CsvRecord) :=
  if m.any (fun p => p.1 = k) then
    m.map (fun p => if p.1 = k then (k, v) else p)
  else
    m ++ [(k, v)]

/-- One step of the `deduplicateData` fold over the records. -/
def dedupStep (m : List (String × CsvRecord)) (r : CsvRecord) :
    List (String × CsvRecord) :=
  if shouldReplace (mapGet m (dedupKey r)) r then
    mapSet m (dedupKey r) r
  else
    m

/-- `deduplicateData`: fold all records through the map, then take
`Array.from(uniqueMap.values())` (insertion order). -/
def deduplicateData (data : List CsvRecord) : List CsvRecord :=
  (data.foldl dedupStep []).map Prod.snd

/-- Try to match the regex `\d{4}-\d{2}-\d{2}T\d{2}-\d{2}-\d{2}` at the
head of the character list; on success return the 19 matched characters. -/
def tsMatchAt : List Char → Option (List Char)
  | y1 :: y2 :: y3 :: y4 :: '-' :: m1 :: m2 :: '-' :: d1 :: d2 :: 'T' ::
      h1 :: h2 :: '-' :: n1 :: n2 :: '-' :: s1 :: s2 :: _ =>
    if y1.isDigit && y2.isDigit && y3.isDigit && y4.isDigit &&
        m1.isDigit && m2.isDigit && d1.isDigit && d2.isDigit &&
        h1.isDigit && h2.isDigit && n1.isDigit && n2.isDigit &&
        s1.isDigit && s2.isDigit then
      some [y1, y2, y3, y4, '-', m1, m2, '-', d1, d2, 'T',
        h1, h2, '-', n1, n2, '-', s1, s2]
    else
      none
  | _ => none

/-- Leftmost match of the timestamp pattern in a character list. -/
def findTs : List Char → Option (List Char)
  | [] => none
  | c :: cs =>
    match tsMatchAt (c :: cs) with
    | some t => some t
    | none => findTs cs

/-- `extractTimestamp`: first occurrence of
`\d{4}-\d{2}-\d{2}T\d{2}-\d{2}-\d{2}` in the filename, or `null`. -/
def extractTimestamp (filename : String) : Option String :=
  (findTs filename.data).map String.mk

/-- One partial result set as the consolidator's `main` sees it: the CSV
file's base name and its parsed records. -/
structure PartialResultSet where
  filename : String
  rows : List CsvRecord
deriving Repr

/-- The metadata-attachment step of `main`: stamp every record of a file
with the timestamp extracted from the file's name. -/
def stampRecords (ts : Option String) (rows : List CsvRecord) : List CsvRecord :=
  rows.map (fun r => { r with srcTimestamp := ts })

/-- The metadata-removal step of `main` (`delete record._source_timestamp`). -/
def stripMeta (r : CsvRecord) : CsvRecord :=
  { r with srcTimestamp := none }

/-- `consolidate`: flatten all files' records with their provenance
timestamps, deduplicate, and strip the metadata before saving. -/
def consolidate (partials : List PartialResultSet) : List CsvRecord :=
  (deduplicateData
    ((partials.map (fun p => stampRecords (extractTimestamp p.filename) p.rows)).flatten)).map
    stripMeta

/-- The records of a list whose deduplication key is `u`. -/
def keyOccurrences (l : List CsvRecord) (u : String) : List CsvRecord :=
  l.filter (fun r => dedupKey r = u)

/-- Per-key view of one `deduplicateData` step: what happens to the map
entry of a fixed key when a record with that key arrives. -/
def keyStep (o : Option CsvRecord) (r : CsvRecord) : Option CsvRecord :=
  if shouldReplace o r then some r else o

/-- The success test of the per-URL loop: `data && data.length > 0`. -/
def isSuccessOutcome : Option (List Row) → Bool
  | some data => 0 < data.length
  | none => false

/-! ## Lemmas about the Partitioner -/

theorem generateUrlList_length (totalPages : Nat) :
    (generateUrlList totalPages).length = totalPages := by
  simp [generateUrlList]

theorem chunksOf_nil (k : Nat) : chunksOf k [] = [] := by
  cases k <;> simp [chunksOf]

theorem chunksOf_ne_nil (k : Nat) (l : List String) (h : l ≠ []) :
    chunksOf (k + 1) l = l.take (k + 1) :: chunksOf (k + 1) (l.drop (k + 1)) := by
  match l with
  | [] => exact absurd rfl h
  | a :: l => simp [chunksOf]

theorem chunkLoop_eq_chunksOf (urls : List String) (k : Nat) :
    ∀ (fuel i : Nat) (acc : List (List String)), urls.length - i < fuel →
      chunkLoop fuel urls (k + 1) i acc = some (acc ++ chunksOf (k + 1) (urls.drop i)) := by
  intro fuel
  induction fuel with
  | zero => intro i acc h; omega
  | succ fuel ih =>
    intro i acc h
    rw [chunkLoop]
    by_cases hi : i < urls.length
    · simp only [hi, if_true]
      rw [ih (i + (k + 1)) _ (by omega)]
      rw [chunksOf_ne_nil k (urls.drop i) (by
        intro hnil
        have := List.drop_eq_nil_iff.mp hnil
        omega)]
      rw [List.drop_drop]
      simp [Nat.add_comm]
    · simp only [hi, if_false]
      have hdrop : urls.drop i = [] := List.drop_eq_nil_iff.mpr (by omega)
      rw [hdrop, chunksOf_nil]
      simp

theorem chunkUrls_eq_chunksOf (urls : List String) (k : Nat) (hk : 1 ≤ k) :
    chunkUrls urls k = some (chunksOf k urls) := by
  match k, hk with
  | k + 1, _ =>
    have h := chunkLoop_eq_chunksOf urls k (urls.length + 1) 0 [] (by omega)
    simpa [chunkUrls] using h

theorem chunksOf_flatten (k : Nat) :
    ∀ (n : Nat) (l : List String), l.length ≤ n → (chunksOf (k + 1) l).flatten = l := by
  intro n
  induction n with
  | zero =>
    intro l h
    have : l = [] := List.eq_nil_of_length_eq_zero (Nat.le_zero.mp h)
    subst this
    simp [chunksOf_nil]
  | succ n ih =>
    intro l h
    match l with
    | [] => simp [chunksOf_nil]
    | a :: l =>
      have hlen : ((a :: l).drop (k + 1)).length ≤ n := by
        simp only [List.length_drop, List.length_cons]
        simp only [List.length_cons] at h
        omega
      rw [chunksOf_ne_nil k (a :: l) (by simp)]
      rw [List.flatten_cons]
      rw [ih ((a :: l).drop (k + 1)) hlen]
      exact List.take_append_drop (k + 1) (a :: l)

theorem chunksOf_eq_nil_iff (k : Nat) (l : List String) :
    chunksOf (k + 1) l = [] ↔ l = [] := by
  constructor
  · intro h
    by_contra hne
    rw [chunksOf_ne_nil k l hne] at h
    exact List.cons_ne_nil _ _ h
  · intro h; subst h; exact chunksOf_nil _

theorem chunksOf_nonlast_length (k : Nat) :
    ∀ (n : Nat) (l : List String), l.length ≤ n →
      ∀ (i : Nat) (c : List String), i + 1 < (chunksOf (k + 1) l).length →
        (chunksOf (k + 1) l).get? i = some c → c.length = k + 1 := by
  intro n
  induction n with
  | zero =>
    intro l h i c hi
    have : l = [] := List.eq_nil_of_length_eq_zero (Nat.le_zero.mp h)
    subst this
    simp [chunksOf_nil] at hi
  | succ n ih =>
    intro l h i c hi hget
    match l with
    | [] => simp [chunksOf_nil] at hi
    | a :: l =>
      rw [chunksOf_ne_nil k (a :: l) (by simp)] at hi hget
      match i with
      | 0 =>
        simp only [List.get?_cons_zero, Option.some_inj] at hget
        subst hget
        simp only [List.length_cons] at hi
        have hrest : chunksOf (k + 1) ((a :: l).drop (k + 1)) ≠ [] := by
          intro hnil
          rw [hnil] at hi
          simp at hi
        have hdrop : (a :: l).drop (k + 1) ≠ [] := by
          intro hnil
          exact hrest (by rw [hnil, chunksOf_nil])
        have hlen : k + 1 ≤ (a :: l).length := by
          by_contra hle
          exact hdrop (List.drop_eq_nil_iff.mpr (by omega))
        rw [List.length_take]
        exact Nat.min_eq_left hlen
      | i + 1 =>
        simp only [List.get?_cons_succ] at hget
        simp only [List.length_cons] at hi
        have hlen : ((a :: l).drop (k + 1)).length ≤ n := by
          simp only [List.length_drop, List.length_cons]
          simp only [List.length_cons] at h
          omega
        exact ih ((a :: l).drop (k + 1)) hlen i c (by omega) hget

theorem chunkLoop_zero_diverges (urls : List String) (hurls : 0 < urls.length) :
    ∀ (fuel : Nat) (acc : List (List String)),
      chunkLoop fuel urls 0 0 acc = none := by
  intro fuel
  induction fuel with
  | zero => intro acc; rfl
  | succ fuel ih =>
    intro acc
    rw [chunkLoop]
    simp only [hurls, if_true]
    exact ih _

/-- C1: for every `totalPages ≥ 1` and `quota ≥ 1` the partitioner's
chunking terminates, the concatenation of the chunks in order is exactly
the generated URL list (so chunk URL order equals global URL order), the
chunk lengths sum to `totalPages`, and every chunk except possibly the
last has length exactly `quota`. -/
theorem C1_partition_correct (totalPages quota : Nat)
    (h1 : 1 ≤ totalPages) (h2 : 1 ≤ quota) :
    ∃ cs, partition totalPages quota = some cs ∧
      cs.flatten = generateUrlList totalPages ∧
      (cs.map List.length).sum = totalPages ∧
      ∀ (i : Nat) (c : List String), i + 1 < cs.length →
        cs.get? i = some c → c.length = quota := by
  match quota, h2 with
  | k + 1, _ =>
    refine ⟨chunksOf (k + 1) (generateUrlList totalPages), ?_, ?_, ?_, ?_⟩
    · exact chunkUrls_eq_chunksOf _ _ (by omega)
    · exact chunksOf_flatten k (generateUrlList totalPages).length _ (Nat.le_refl _)
    · have hf := chunksOf_flatten k (generateUrlList totalPages).length
        (generateUrlList totalPages) (Nat.le_refl _)
    
      calc (List.map List.length (chunksOf (k + 1) (generateUrlList totalPages))).sum
          = (chunksOf (k + 1) (generateUrlList totalPages)).flatten.length := by
            rw [List.length_flatten]
        _ = totalPages := by rw [hf, generateUrlList_length]
    · exact chunksOf_nonlast_length k (generateUrlList totalPages).length _ (Nat.le_refl _)

/-- Closed instantiation of `C1_partition_correct` at `totalPages = 5`,
`quota = 2`. -/
theorem C1_witness :
    ∃ cs, partition 5 2 = some cs ∧
      cs.flatten = generateUrlList 5 ∧
      (cs.map List.length).sum = 5 ∧
      ∀ (i : Nat) (c : List String), i + 1 < cs.length →
        cs.get? i = some c → c.length = 2 :=
  C1_partition_correct 5 2 (by decide) (by decide)

/-- C6 counterexample: `partition(0, 50)` does not fail with any
configuration error — it succeeds and returns an empty chunk list. -/
theorem C6_counterexample : partition 0 50 = some [] := by decide

/-- C6 (amended): the partitioner performs no input validation.
`partition(0, quota)` succeeds with an empty chunk sequence, and for
`totalPages ≥ 1` the chunking loop of `partition(totalPages, 0)` never
terminates (it yields no result under any fuel bound). -/
theorem C6_amended_no_validation :
    (∀ quota : Nat, partition 0 quota = some []) ∧
    (∀ totalPages : Nat, 1 ≤ totalPages →
      partition totalPages 0 = none ∧
      ∀ (fuel : Nat) (acc : List (List String)),
        chunkLoop fuel (generateUrlList totalPages) 0 0 acc = none) := by
  constructor
  · intro quota
    have h : generateUrlList 0 = [] := by simp [generateUrlList]
    simp [partition, chunkUrls, h, chunkLoop]
  · intro totalPages h
    have hlen : 0 < (generateUrlList totalPages).length := by
      rw [generateUrlList_length]; omega
    refine ⟨?_, chunkLoop_zero_diverges _ hlen⟩
    exact chunkLoop_zero_diverges _ hlen _ _

/-- Closed instantiation of `C6_amended_no_validation`. -/
theorem C6_amended_witness : partition 0 7 = some [] ∧ partition 3 0 = none :=
  ⟨C6_amended_no_validation.1 7, (C6_amended_no_validation.2 3 (by decide)).1⟩

/-- C9: the Partitioner writes the first chunk as `chunk_0001.txt`
(zero-padded) but the chunk-processing entry point, given identifier
`"1"`, reads `chunk_1.txt` — a different file, so chunk identity does
not round-trip. -/
theorem C9_chunk_filename_mismatch :
    savedChunkFilename 0 = "chunk_0001.txt" ∧
    workerChunkFilename "1" = "chunk_1.txt" ∧
    savedChunkFilename 0 ≠ workerChunkFilename "1" := by decide

/-! ## Lemmas about the Chunk Runner and extraction -/

theorem runFold_spec (fetch : String → Except String PageState) (now : String) :
    ∀ (urls : List String) (d : List Row) (s f : Nat),
      urls.foldl (runStep fetch now) ⟨d, s, f⟩ =
        ⟨d ++ (urls.map (fun u => (scrapePage (fetch u) now).getD [])).flatten,
         s + (urls.filter (fun u => isSuccessOutcome (scrapePage (fetch u) now))).length,
         f + (urls.filter (fun u => !isSuccessOutcome (scrapePage (fetch u) now))).length⟩ := by
  intro urls
  induction urls with
  | nil => intro d s f; simp
  | cons u urls ih =>
    intro d s f
    simp only [List.foldl_cons, List.filter_cons, List.map_cons, List.flatten_cons]
    match hs : scrapePage (fetch u) now with
    | some data =>
      by_cases hd : 0 < data.length
      · have hstep : runStep fetch now ⟨d, s, f⟩ u = ⟨d ++ data, s + 1, f⟩ := by
          simp [runStep, hs, hd]
        have hsucc : isSuccessOutcome (some data) = true := by
          simp [isSuccessOutcome, hd]
        rw [hstep, ih]
        simp [hsucc, List.append_assoc]
        omega
      · have hdata : data = [] := List.length_eq_zero.mp (by omega)
        subst hdata
        have hstep : runStep fetch now ⟨d, s, f⟩ u = ⟨d, s, f + 1⟩ := by
          simp [runStep, hs]
        have hfail : isSuccessOutcome (some ([] : List Row)) = false := by
          simp [isSuccessOutcome]
        rw [hstep, ih]
        simp [hfail]
        omega
    | none =>
      have hstep : runStep fetch now ⟨d, s, f⟩ u = ⟨d, s, f + 1⟩ := by
        simp [runStep, hs]
      have hfail : isSuccessOutcome (none : Option (List Row)) = false := by
        simp [isSuccessOutcome]
      rw [hstep, ih]
      simp [hfail]
      omega

theorem runChunk_spec (urls : List String) (fetch : String → Except String PageState)
    (now : String) :
    runChunk urls fetch now =
      ⟨(urls.map (fun u => (scrapePage (fetch u) now).getD [])).flatten,
       (urls.filter (fun u => isSuccessOutcome (scrapePage (fetch u) now))).length,
       (urls.filter (fun u => !isSuccessOutcome (scrapePage (fetch u) now))).length⟩ := by
  unfold runChunk
  rw [runFold_spec]
  simp

theorem filter_length_add_not {α : Type} (p : α → Bool) :
    ∀ l : List α, (l.filter p).length + (l.filter (fun a => !p a)).length = l.length := by
  intro l
  induction l with
  | nil => simp
  | cons a l ih =>
    simp only [List.filter_cons]
    cases h : p a <;> simp [h, ← ih] <;> omega

theorem filter_length_mono {α : Type} (p q : α → Bool)
    (h : ∀ a, p a = true → q a = true) :
    ∀ l : List α, (l.filter p).length ≤ (l.filter q).length := by
  intro l
  induction l with
  | nil => simp
  | cons a l ih =>
    simp only [List.filter_cons]
    cases hp : p a
    · cases hq : q a <;> simp <;> omega
    · rw [h a hp]
      simp
      omega

theorem persistedFile_eq_none (c t : String) (r : RunResult) :
    persistedFile c t r = none ↔ r.allData = [] := by
  unfold persistedFile
  split
  · rename_i h
    simp only [reduceCtorEq, false_iff]
    intro hnil
    rw [hnil] at h
    simp at h
  · rename_i h
    simp only [Nat.not_lt, Nat.le_zero] at h
    simp [List.length_eq_zero.mp h]

/-- C5: per-page fetch failures never escape the Chunk Runner.  The
runner is a total function: it processes every URL (success and failure
counts sum to the chunk length), every URL whose fetch fails is recorded
in the failure count, and both a detected challenge page and a caught
exception yield the failure outcome `none` rather than an escaping
exception. -/
theorem C5_per_page_failures_contained (urls : List String)
    (fetch : String → Except String PageState) (now : String) :
    (runChunk urls fetch now).successCount + (runChunk urls fetch now).failCount =
      urls.length ∧
    (urls.filter (fun u => (scrapePage (fetch u) now).isNone)).length ≤
      (runChunk urls fetch now).failCount ∧
    (∀ ps : PageState, isChallengePage ps.title ps.url = true →
      scrapePage (Except.ok ps) now = none) ∧
    (∀ e : String, scrapePage (Except.error e) now = none) := by
  rw [runChunk_spec]
  refine ⟨filter_length_add_not _ urls, ?_, ?_, ?_⟩
  · refine filter_length_mono _ _ ?_ urls
    intro u hu
    match hs : scrapePage (fetch u) now with
    | some data => rw [hs] at hu; simp at hu
    | none => simp [isSuccessOutcome]
  · intro ps h
    simp [scrapePage, h]
  · intro e
    rfl

/-- Closed instantiation of `C5_per_page_failures_contained`: a chunk of
two URLs that both throw still completes with both counted as failures,
and a CAPTCHA page produces the `none` failure outcome. -/
theorem C5_witness :
    (runChunk ["a", "b"] (fun _ => Except.error "boom") "t").successCount +
      (runChunk ["a", "b"] (fun _ => Except.error "boom") "t").failCount = 2 ∧
    scrapePage (Except.ok ⟨"CAPTCHA Check", "https://myip.ms/x", true, []⟩) "t" = none :=
  ⟨(C5_per_page_failures_contained ["a", "b"] (fun _ => Except.error "boom") "t").1,
   (C5_per_page_failures_contained [] (fun _ => Except.error "e") "t").2.2.1
     ⟨"CAPTCHA Check", "https://myip.ms/x", true, []⟩ (by decide)⟩

/-- C8 counterexample: a fetch that succeeds with zero rows (`some []`)
is counted as a failure, not a success — `successCount = 0`,
`failCount = 1` for a one-URL chunk whose fetch returns an empty table. -/
theorem C8_counterexample :
    scrapePage (Except.ok ⟨"Sites Data", "https://myip.ms/browse", true, []⟩) "t" = some [] ∧
    runChunk ["u"] (fun _ => Except.ok ⟨"Sites Data", "https://myip.ms/browse", true, []⟩) "t" =
      ⟨[], 0, 1⟩ := by decide

/-- C8 (amended): the runner appends all returned rows to the
accumulator in chunk order; the success counter counts exactly the URLs
whose fetch returned at least one row, the failure counter counts all
the others (fetch failures and zero-row successes), and the two counters
sum to the chunk length. -/
theorem C8_amended_success_counting (urls : List String)
    (fetch : String → Except String PageState) (now : String) :
    (runChunk urls fetch now).allData =
      (urls.map (fun u => (scrapePage (fetch u) now).getD [])).flatten ∧
    (runChunk urls fetch now).successCount =
      (urls.filter (fun u => isSuccessOutcome (scrapePage (fetch u) now))).length ∧
    (runChunk urls fetch now).failCount =
      (urls.filter (fun u => !isSuccessOutcome (scrapePage (fetch u) now))).length ∧
    (runChunk urls fetch now).successCount + (runChunk urls fetch now).failCount =
      urls.length := by
  rw [runChunk_spec]
  exact ⟨rfl, rfl, rfl, filter_length_add_not _ urls⟩

/-- C7 counterexample: a chunk in which every fetch fails collects no
rows, and the save block then persists nothing at all — no empty
PartialResultSet is written. -/
theorem C7_counterexample :
    (runChunk ["u1", "u2"] (fun _ => Except.error "navigation timeout") "t").allData = [] ∧
    persistedFile "1" "ts"
      (runChunk ["u1", "u2"] (fun _ => Except.error "navigation timeout") "t") = none := by
  decide

/-- C7 (amended): the worker persists a PartialResultSet iff at least
one Row was collected; in particular a chunk run in which every fetch
fails persists nothing, so a fully failed chunk is indistinguishable on
disk from a chunk that never ran. -/
theorem C7_amended_persist_only_nonempty (chunkNumber ts : String) (urls : List String)
    (fetch : String → Except String PageState) (now : String) :
    (persistedFile chunkNumber ts (runChunk urls fetch now) = none ↔
      (runChunk urls fetch now).allData = []) ∧
    ((∀ u ∈ urls, scrapePage (fetch u) now = none) →
      persistedFile chunkNumber ts (runChunk urls fetch now) = none) := by
  refine ⟨persistedFile_eq_none _ _ _, ?_⟩
  intro h
  rw [persistedFile_eq_none, runChunk_spec]
  simp only [List.flatten_eq_nil_iff]
  intro l hl
  rw [List.mem_map] at hl
  obtain ⟨u, hu, hl⟩ := hl
  rw [h u hu] at hl
  exact hl.symm

/-- Closed instantiation of `C7_amended_persist_only_nonempty`. -/
theorem C7_amended_witness :
    persistedFile "1" "ts" (runChunk ["a"] (fun _ => Except.error "x") "t") = none :=
  (C7_amended_persist_only_nonempty "1" "ts" ["a"] (fun _ => Except.error "x") "t").2
    (by intro u hu; rfl)

theorem collapseWsAux_no_ws :
    ∀ (l : List Char) (b : Bool), ∀ c ∈ collapseWsAux b l, c.isWhitespace = false := by
  intro l
  induction l with
  | nil => intro b c hc; simp [collapseWsAux] at hc
  | cons a l ih =>
    intro b c hc
    simp only [collapseWsAux] at hc
    by_cases ha : a.isWhitespace
    · rw [if_pos ha] at hc
      cases b with
      | true => exact ih true c hc
      | false =>
        rcases List.mem_cons.mp hc with hc | hc
        · rw [hc]; decide
        · exact ih true c hc
    · rw [if_neg ha] at hc
      rcases List.mem_cons.mp hc with hc | hc
      · rw [hc]; exact Bool.not_eq_true _ ▸ eq_false_of_ne_true ha
      · exact ih false c hc

theorem collapseWs_no_ws (s : String) :
    ∀ c ∈ (collapseWs s).data, c.isWhitespace = false :=
  collapseWsAux_no_ws s.data false

/-- C3: extraction never emits a row whose `domain` and `ipAddress` are
both empty, and a mapped row with empty `domain` but non-empty
`ipAddress` is retained in the extraction output. -/
theorem C3_empty_row_filtering (trRows : List (List Cell)) (srcUrl now : String) :
    (∀ r ∈ extractTable trRows srcUrl now, ¬(r.domain = "" ∧ r.ipAddress = "")) ∧
    (∀ (i : Nat) (cells : List Cell), (trRows.drop 1).get? i = some cells →
      (extractRow i cells srcUrl now).domain = "" →
      (extractRow i cells srcUrl now).ipAddress ≠ "" →
      extractRow i cells srcUrl now ∈ extractTable trRows srcUrl now) := by
  constructor
  · intro r hr
    have hp := (List.mem_filter.mp hr).2
    intro hc
    rw [hc.1, hc.2] at hp
    simp at hp
  · intro i cells hget hdom hip
    apply List.mem_filter.mpr
    constructor
    · exact List.mem_map.mpr ⟨(i, cells), List.mk_mem_enum_iff_get?.mpr hget, rfl⟩
    · simp only [hdom]
      simp [hip]

/-- Closed instantiation of `C3_empty_row_filtering`: a data row with an
empty domain cell and IP `9.9.9.9` is retained. -/
theorem C3_witness :
    extractRow 0 [⟨"1", none, none⟩, ⟨" ", none, none⟩, ⟨"9.9.9.9", none, none⟩] "u" "t" ∈
      extractTable [[], [⟨"1", none, none⟩, ⟨" ", none, none⟩, ⟨"9.9.9.9", none, none⟩]]
        "u" "t" :=
  (C3_empty_row_filtering
      [[], [⟨"1", none, none⟩, ⟨" ", none, none⟩, ⟨"9.9.9.9", none, none⟩]] "u" "t").2
    0 [⟨"1", none, none⟩, ⟨" ", none, none⟩, ⟨"9.9.9.9", none, none⟩]
    (by decide) (by decide) (by decide)

/-- C4 counterexample: a retained extracted row whose domain cell has
empty own text but anchor text `"foo.com"` — the `domain` field resolves
to `"foo.com"` through the anchor fallback, yet `uniqueId` is built from
the cell's own text, giving `"1-"`, which is not
`collapseWs(rank ++ "-" ++ domain)`.  So not every extracted row has
`uniqueId = rank + "-" + domain` with whitespace collapsed. -/
theorem C4_counterexample :
    (extractRow 0 [⟨"1", none, none⟩, ⟨"", some "foo.com", some "http://foo.com"⟩,
      ⟨"9.9.9.9", none, none⟩] "u" "t").domain = "foo.com" ∧
    extractRow 0 [⟨"1", none, none⟩, ⟨"", some "foo.com", some "http://foo.com"⟩,
      ⟨"9.9.9.9", none, none⟩] "u" "t" ∈
      extractTable [[], [⟨"1", none, none⟩, ⟨"", some "foo.com", some "http://foo.com"⟩,
        ⟨"9.9.9.9", none, none⟩]] "u" "t" ∧
    (extractRow 0 [⟨"1", none, none⟩, ⟨"", some "foo.com", some "http://foo.com"⟩,
      ⟨"9.9.9.9", none, none⟩] "u" "t").uniqueId = "1-" ∧
    (extractRow 0 [⟨"1", none, none⟩, ⟨"", some "foo.com", some "http://foo.com"⟩,
      ⟨"9.9.9.9", none, none⟩] "u" "t").uniqueId ≠
      collapseWs
        ((extractRow 0 [⟨"1", none, none⟩, ⟨"", some "foo.com", some "http://foo.com"⟩,
          ⟨"9.9.9.9", none, none⟩] "u" "t").rank ++ "-" ++
          (extractRow 0 [⟨"1", none, none⟩, ⟨"", some "foo.com", some "http://foo.com"⟩,
            ⟨"9.9.9.9", none, none⟩] "u" "t").domain) := by
  decide

/-- C4 (amended): every extracted row's `uniqueId` is
`rank + "-" + (the domain cell's own trimmed text)` with every
whitespace run collapsed to a single hyphen; this equals
`rank + "-" + domain` whenever the cell's own text is non-empty (the
only case in which the `domain` field does not come from the anchor
fallback); the `uniqueId` never contains whitespace, and for rank
`"12"` and domain `"example.com"` it is exactly `"12-example.com"`. -/
theorem C4_uniqueId_shape (i : Nat) (c0 c1 : Cell) (rest : List Cell) (srcUrl now : String) :
    (extractRow i (c0 :: c1 :: rest) srcUrl now).uniqueId =
      collapseWs ((extractRow i (c0 :: c1 :: rest) srcUrl now).rank ++ "-" ++
        jsTrim c1.text) ∧
    (jsTrim c1.text ≠ "" →
      (extractRow i (c0 :: c1 :: rest) srcUrl now).domain = jsTrim c1.text ∧
      (extractRow i (c0 :: c1 :: rest) srcUrl now).uniqueId =
        collapseWs ((extractRow i (c0 :: c1 :: rest) srcUrl now).rank ++ "-" ++
          (extractRow i (c0 :: c1 :: rest) srcUrl now).domain)) ∧
    (∀ ch ∈ (extractRow i (c0 :: c1 :: rest) srcUrl now).uniqueId.data,
      ch.isWhitespace = false) ∧
    (extractRow 0 [⟨"12", none, none⟩, ⟨"example.com", some "example.com", none⟩]
      "u" "t").uniqueId = "12-example.com" := by
  refine ⟨?_, ?_, ?_, by decide⟩
  · by_cases h : jsTrim c1.text = ""
    · simp [extractRow, jsOr, h]
    · simp [extractRow, jsOr, h]
  · intro h
    refine ⟨by simp [extractRow, jsOr, h], by simp [extractRow, jsOr, h]⟩
  · intro ch hch
    exact collapseWs_no_ws _ ch hch

/-- Closed instantiation of `C4_uniqueId_shape` at a whitespace-bearing
domain, discharging the non-empty-cell-text hypothesis. -/
theorem C4_witness :
    (extractRow 3 [⟨"7", none, none⟩, ⟨" foo bar.com ", none, none⟩] "u" "t").domain =
      jsTrim " foo bar.com " ∧
    (extractRow 3 [⟨"7", none, none⟩, ⟨" foo bar.com ", none, none⟩] "u" "t").uniqueId =
      collapseWs ((extractRow 3 [⟨"7", none, none⟩, ⟨" foo bar.com ", none, none⟩] "u" "t").rank ++
        "-" ++ (extractRow 3 [⟨"7", none, none⟩, ⟨" foo bar.com ", none, none⟩] "u" "t").domain) :=
  (C4_uniqueId_shape 3 ⟨"7", none, none⟩ ⟨" foo bar.com ", none, none⟩ [] "u" "t").2.1
    (by decide)

/-! ## Lemmas about the Consolidator -/

theorem find?_map_set_other (k u : String) (v : CsvRecord) (h : k ≠ u) :
    ∀ m : List (String × CsvRecord),
      (m.map (fun p => if p.1 = k then (k, v) else p)).find? (fun p => p.1 = u) =
        m.find? (fun p => p.1 = u) := by
  intro m
  induction m with
  | nil => rfl
  | cons q m ih =>
    simp only [List.map_cons]
    by_cases hq : q.1 = k
    · rw [if_pos hq]
      rw [List.find?_cons_of_neg _ (by simp [h]),
        List.find?_cons_of_neg _ (by simp [hq, h])]
      exact ih
    · rw [if_neg hq]
      by_cases hu : q.1 = u
      · rw [List.find?_cons_of_pos _ (by simp [hu]),
          List.find?_cons_of_pos _ (by simp [hu])]
      · rw [List.find?_cons_of_neg _ (by simp [hu]),
          List.find?_cons_of_neg _ (by simp [hu])]
        exact ih

theorem find?_map_set_self (k : String) (v : CsvRecord) :
    ∀ m : List (String × CsvRecord), m.any (fun p => p.1 = k) = true →
      (m.map (fun p => if p.1 = k then (k, v) else p)).find? (fun p => p.1 = k) =
        some (k, v) := by
  intro m
  induction m with
  | nil => intro h; simp at h
  | cons q m ih =>
    intro h
    simp only [List.map_cons]
    by_cases hq : q.1 = k
    · rw [if_pos hq, List.find?_cons_of_pos _ (by simp)]
    · rw [if_neg hq, List.find?_cons_of_neg _ (by simp [hq])]
      apply ih
      simp only [List.any_cons, hq] at h
      simpa using h

theorem find?_append_new_self (k : String) (v : CsvRecord) :
    ∀ m : List (String × CsvRecord), m.any (fun p => p.1 = k) = false →
      (m ++ [(k, v)]).find? (fun p => p.1 = k) = some (k, v) := by
  intro m
  induction m with
  | nil => intro h; simp [List.find?_cons_of_pos]
  | cons q m ih =>
    intro h
    rw [List.any_cons] at h
    have h1 : (decide (q.1 = k)) = false := by
      cases hq : decide (q.1 = k)
      · rfl
      · rw [hq] at h; simp at h
    have h2 : m.any (fun p => p.1 = k) = false := by
      rw [h1, Bool.false_or] at h
      exact h
    rw [List.cons_append, List.find?_cons_of_neg _ (by simpa using h1)]
    exact ih h2

theorem find?_append_new_other (k u : String) (v : CsvRecord) (h : k ≠ u) :
    ∀ m : List (String × CsvRecord),
      (m ++ [(k, v)]).find? (fun p => p.1 = u) = m.find? (fun p => p.1 = u) := by
  intro m
  induction m with
  | nil => simp [List.find?_cons_of_neg, h]
  | cons q m ih =>
    rw [List.cons_append]
    by_cases hu : q.1 = u
    · rw [List.find?_cons_of_pos _ (by simp [hu]),
        List.find?_cons_of_pos _ (by simp [hu])]
    · rw [List.find?_cons_of_neg _ (by simp [hu]),
        List.find?_cons_of_neg _ (by simp [hu])]
      exact ih

theorem mapGet_mapSet_self (m : List (String × CsvRecord)) (k : String) (v : CsvRecord) :
    mapGet (mapSet m k v) k = some v := by
  unfold mapGet mapSet
  by_cases h : m.any (fun p => p.1 = k) = true
  · rw [if_pos h, find?_map_set_self k v m h]
    rfl
  · rw [if_neg h, find?_append_new_self k v m (Bool.eq_false_iff.mpr h)]
    rfl

theorem mapGet_mapSet_other (m : List (String × CsvRecord)) (k u : String)
    (v : CsvRecord) (h : k ≠ u) :
    mapGet (mapSet m k v) u = mapGet m u := by
  unfold mapGet mapSet
  by_cases ha : m.any (fun p => p.1 = k) = true
  · rw [if_pos ha, find?_map_set_other k u v h m]
  · rw [if_neg ha, find?_append_new_other k u v h m]

theorem dedupStep_key_view (m : List (String × CsvRecord)) (r : CsvRecord) (u : String) :
    mapGet (dedupStep m r) u =
      (if dedupKey r = u then keyStep (mapGet m u) r else mapGet m u) := by
  by_cases hk : dedupKey r = u
  · rw [if_pos hk]
    unfold dedupStep keyStep
    rw [hk]
    by_cases hrep : shouldReplace (mapGet m u) r = true
    · rw [if_pos hrep, if_pos hrep, mapGet_mapSet_self]
    · rw [if_neg hrep, if_neg hrep]
  · rw [if_neg hk]
    unfold dedupStep
    split
    · exact mapGet_mapSet_other m (dedupKey r) u r hk
    · rfl

theorem mapGet_fold_dedup (u : String) :
    ∀ (data : List CsvRecord) (m : List (String × CsvRecord)),
      mapGet (data.foldl dedupStep m) u =
        (keyOccurrences data u).foldl keyStep (mapGet m u) := by
  intro data
  induction data with
  | nil => intro m; rfl
  | cons r data ih =>
    intro m
    simp only [List.foldl_cons]
    unfold keyOccurrences
    simp only [List.filter_cons]
    rw [ih]
    by_cases hk : dedupKey r = u
    · rw [if_pos (by simpa using hk), List.foldl_cons]
      have hv := dedupStep_key_view m r u
      rw [if_pos hk] at hv
      rw [hv]
      rfl
    · rw [if_neg (by simpa using hk)]
      have hv := dedupStep_key_view m r u
      rw [if_neg hk] at hv
      rw [hv]
      rfl

theorem mapSet_inv (m : List (String × CsvRecord)) (r : CsvRecord)
    (h1 : ∀ p ∈ m, dedupKey p.2 = p.1) (h2 : (m.map Prod.fst).Nodup) :
    (∀ p ∈ mapSet m (dedupKey r) r, dedupKey p.2 = p.1) ∧
      ((mapSet m (dedupKey r) r).map Prod.fst).Nodup := by
  unfold mapSet
  by_cases ha : m.any (fun p => p.1 = dedupKey r) = true
  · rw [if_pos ha]
    constructor
    · intro p hp
      obtain ⟨q, hq, rfl⟩ := List.mem_map.mp hp
      by_cases hqk : q.1 = dedupKey r
      · rw [if_pos hqk]
      · rw [if_neg hqk]
        exact h1 q hq
    · have hkeys : ∀ ml : List (String × CsvRecord),
          ((ml.map (fun p => if p.1 = dedupKey r then (dedupKey r, r) else p)).map
            Prod.fst) = ml.map Prod.fst := by
        intro ml
        induction ml with
        | nil => rfl
        | cons q ml ihq =>
          simp only [List.map_cons, ihq]
          by_cases hqk : q.1 = dedupKey r
          · rw [if_pos hqk, hqk]
          · rw [if_neg hqk]
      rw [hkeys]
      exact h2
  · rw [if_neg ha]
    have hnot : ∀ p ∈ m, p.1 ≠ dedupKey r := by
      intro p hp
      have := List.any_eq_false.mp (Bool.eq_false_iff.mpr ha) p hp
      simpa using this
    constructor
    · intro p hp
      rcases List.mem_append.mp hp with hp | hp
      · exact h1 p hp
      · rw [List.mem_singleton.mp hp]
    · rw [List.map_append]
      rw [List.nodup_append]
      refine ⟨h2, by simp, ?_⟩
      intro a ha1 ha2
      simp only [List.map_cons, List.map_nil, List.mem_singleton] at ha2
      obtain ⟨p, hp, rfl⟩ := List.mem_map.mp ha1
      exact hnot p hp ha2

theorem dedup_fold_inv :
    ∀ (data : List CsvRecord) (m : List (String × CsvRecord)),
      (∀ p ∈ m, dedupKey p.2 = p.1) → (m.map Prod.fst).Nodup →
      (∀ p ∈ data.foldl dedupStep m, dedupKey p.2 = p.1) ∧
        ((data.foldl dedupStep m).map Prod.fst).Nodup := by
  intro data
  induction data with
  | nil => intro m h1 h2; exact ⟨h1, h2⟩
  | cons r data ih =>
    intro m h1 h2
    simp only [List.foldl_cons]
    unfold dedupStep
    split
    · have := mapSet_inv m r h1 h2
      exact ih (mapSet m (dedupKey r) r) this.1 this.2
    · exact ih m h1 h2

theorem keyOcc_nil_of_no_key (u : String) (m : List (String × CsvRecord))
    (h1 : ∀ p ∈ m, dedupKey p.2 = p.1) (h2 : ∀ p ∈ m, p.1 ≠ u) :
    keyOccurrences (m.map Prod.snd) u = [] := by
  unfold keyOccurrences
  rw [List.filter_eq_nil]
  intro r hr
  obtain ⟨p, hp, rfl⟩ := List.mem_map.mp hr
  simp [h1 p hp, h2 p hp]

theorem values_keyOcc :
    ∀ (m : List (String × CsvRecord)),
      (∀ p ∈ m, dedupKey p.2 = p.1) → (m.map Prod.fst).Nodup →
      ∀ u, keyOccurrences (m.map Prod.snd) u =
        (match mapGet m u with | some r => [r] | none => []) := by
  intro m
  induction m with
  | nil => intro _ _ u; rfl
  | cons q m ih =>
    intro h1 h2 u
    obtain ⟨k, r⟩ := q
    have hkr : dedupKey r = k := h1 (k, r) (by simp)
    have h1t : ∀ p ∈ m, dedupKey p.2 = p.1 := fun p hp => h1 p (by simp [hp])
    simp only [List.map_cons, List.nodup_cons] at h2
    by_cases hku : k = u
    · subst hku
      have hhead : keyOccurrences (r :: m.map Prod.snd) k =
          r :: keyOccurrences (m.map Prod.snd) k := by
        unfold keyOccurrences
        rw [List.filter_cons, if_pos (by simpa using hkr)]
      have htail : keyOccurrences (m.map Prod.snd) k = [] := by
        apply keyOcc_nil_of_no_key k m h1t
        intro p hp hpk
        exact h2.1 (hpk ▸ List.mem_map_of_mem Prod.fst hp)
      rw [List.map_cons, hhead, htail]
      unfold mapGet
      rw [List.find?_cons_of_pos _ (by simp)]
      rfl
    · have hhead : keyOccurrences (r :: m.map Prod.snd) u =
          keyOccurrences (m.map Prod.snd) u := by
        unfold keyOccurrences
        rw [List.filter_cons, if_neg (by simp [hkr, hku])]
      rw [List.map_cons, hhead]
      unfold mapGet
      rw [List.find?_cons_of_neg _ (by simp [hku])]
      exact ih h1t h2.2 u

theorem tsMatchAt_ne_nil (l t : List Char) (h : tsMatchAt l = some t) : t ≠ [] := by
  unfold tsMatchAt at h
  split at h
  · split at h
    · rw [Option.some_inj] at h
      rw [← h]
      simp
    · exact absurd h (by simp)
  · exact absurd h (by simp)

theorem findTs_ne_nil :
    ∀ (l : List Char) (t : List Char), findTs l = some t → t ≠ [] := by
  intro l
  induction l with
  | nil => intro t h; exact absurd h (by simp [findTs])
  | cons c cs ih =>
    intro t h
    unfold findTs at h
    split at h
    · rename_i t' hm
      rw [Option.some_inj] at h
      exact h ▸ tsMatchAt_ne_nil _ t' hm
    · exact ih t h

theorem extractTimestamp_ne_empty (f : String) (t : String)
    (h : extractTimestamp f = some t) : t ≠ "" := by
  unfold extractTimestamp at h
  rw [Option.map_eq_some'] at h
  obtain ⟨l, hl, rfl⟩ := h
  intro hcontra
  have : l = [] := by
    have := congrArg String.data hcontra
    simpa using this
  exact findTs_ne_nil f.data l hl this

theorem stampRecords_ts (ts : Option String) (rows : List CsvRecord) :
    ∀ r ∈ stampRecords ts rows, r.srcTimestamp = ts := by
  intro r hr
  obtain ⟨r0, _, rfl⟩ := List.mem_map.mp hr
  rfl

theorem dedupKey_stripMeta (r : CsvRecord) : dedupKey (stripMeta r) = dedupKey r := rfl

theorem keyOcc_map_stripMeta (l : List CsvRecord) (u : String) :
    keyOccurrences (l.map stripMeta) u = (keyOccurrences l u).map stripMeta := by
  unfold keyOccurrences
  rw [List.filter_map]
  congr 1

theorem jsStrLtChars_asymm :
    ∀ as bs : List Char, jsStrLtChars as bs = true → jsStrLtChars bs as = false := by
  intro as
  induction as with
  | nil =>
    intro bs h
    cases bs with
    | nil => exact absurd h (by simp [jsStrLtChars])
    | cons b bs => simp [jsStrLtChars]
  | cons a as ih =>
    intro bs h
    cases bs with
    | nil => exact absurd h (by simp [jsStrLtChars])
    | cons b bs =>
      unfold jsStrLtChars at h ⊢
      by_cases hab : a < b
      · rw [if_neg (lt_asymm hab), if_pos hab]
      · by_cases hba : b < a
        · rw [if_neg hab, if_pos hba] at h
          exact absurd h (by simp)
        · rw [if_neg hab, if_neg hba] at h
          rw [if_neg hba, if_neg hab]
          exact ih bs h

theorem jsStrLt_asymm (a b : String) (h : jsStrLt a b = true) : jsStrLt b a = false :=
  jsStrLtChars_asymm a.data b.data h

theorem keyStep_some_of_later (r1 r2 : CsvRecord) (t1 t2 : String)
    (h1 : r1.srcTimestamp = some t1) (h2 : r2.srcTimestamp = some t2)
    (ht2 : t2 ≠ "") (hlt : jsStrLt t1 t2 = true) :
    keyStep (some r1) r2 = some r2 := by
  simp only [keyStep, shouldReplace]
  simp only [h1, h2]
  have hgt : strGtOpt (some t2) (some t1) = true := hlt
  rw [if_pos (by simp [truthyOpt, ht2, hgt])]

theorem keyStep_keep_of_earlier (r1 r2 : CsvRecord) (t1 t2 : String)
    (h1 : r1.srcTimestamp = some t1) (h2 : r2.srcTimestamp = some t2)
    (ht2 : t2 ≠ "") (hlt : jsStrLt t1 t2 = true) :
    keyStep (some r2) r1 = some r2 := by
  simp only [keyStep, shouldReplace]
  simp only [h1, h2]
  have hgt : strGtOpt (some t1) (some t2) = false := jsStrLt_asymm t1 t2 hlt
  rw [if_neg (by simp [truthyOpt, ht2, hgt])]

theorem keyStep_none (r : CsvRecord) : keyStep none r = some r := rfl

theorem keyOcc_append (l1 l2 : List CsvRecord) (u : String) :
    keyOccurrences (l1 ++ l2) u = keyOccurrences l1 u ++ keyOccurrences l2 u := by
  unfold keyOccurrences
  exact List.filter_append l1 l2

theorem consolidate_two_keyOcc (fa fb : String) (rowsa rowsb : List CsvRecord)
    (u : String) (w : CsvRecord)
    (hfold : (keyOccurrences (stampRecords (extractTimestamp fa) rowsa) u ++
        keyOccurrences (stampRecords (extractTimestamp fb) rowsb) u).foldl keyStep
          none = some w) :
    keyOccurrences (consolidate [⟨fa, rowsa⟩, ⟨fb, rowsb⟩]) u = [stripMeta w] := by
  unfold consolidate deduplicateData
  simp only [List.map_cons, List.map_nil, List.flatten_cons, List.flatten_nil,
    List.append_nil]
  have hinv := dedup_fold_inv
    (stampRecords (extractTimestamp fa) rowsa ++ stampRecords (extractTimestamp fb) rowsb)
    [] (by simp) (by simp)
  have hget : mapGet
      ((stampRecords (extractTimestamp fa) rowsa ++
        stampRecords (extractTimestamp fb) rowsb).foldl dedupStep []) u = some w := by
    rw [mapGet_fold_dedup, keyOcc_append]
    exact hfold
  rw [keyOcc_map_stripMeta, values_keyOcc _ hinv.1 hinv.2 u, hget]
  rfl

/-- C2: when two PartialResultSets each contain exactly one record with
deduplication key `u`, and the sets' filename timestamps are strictly
ordered, consolidation outputs exactly one record for `u` — the one from
the later-stamped set, with its field values intact (only the transient
provenance stripped) — regardless of the order in which the two files
are read. -/
theorem C2_last_writer_wins (f1 f2 : String) (rows1 rows2 : List CsvRecord)
    (t1 t2 : String) (r1 r2 : CsvRecord) (u : String)
    (h1 : extractTimestamp f1 = some t1) (h2 : extractTimestamp f2 = some t2)
    (hlt : jsStrLt t1 t2 = true)
    (k1 : keyOccurrences (stampRecords (some t1) rows1) u = [r1])
    (k2 : keyOccurrences (stampRecords (some t2) rows2) u = [r2]) :
    keyOccurrences (consolidate [⟨f1, rows1⟩, ⟨f2, rows2⟩]) u = [stripMeta r2] ∧
    keyOccurrences (consolidate [⟨f2, rows2⟩, ⟨f1, rows1⟩]) u = [stripMeta r2] := by
  have ht2 : t2 ≠ "" := extractTimestamp_ne_empty f2 t2 h2
  have hr1mem : r1 ∈ stampRecords (some t1) rows1 := by
    have hm : r1 ∈ keyOccurrences (stampRecords (some t1) rows1) u := by
      rw [k1]; exact List.mem_singleton_self r1
    unfold keyOccurrences at hm
    exact List.mem_of_mem_filter hm
  have hr2mem : r2 ∈ stampRecords (some t2) rows2 := by
    have hm : r2 ∈ keyOccurrences (stampRecords (some t2) rows2) u := by
      rw [k2]; exact List.mem_singleton_self r2
    unfold keyOccurrences at hm
    exact List.mem_of_mem_filter hm
  have hts1 : r1.srcTimestamp = some t1 := stampRecords_ts _ _ r1 hr1mem
  have hts2 : r2.srcTimestamp = some t2 := stampRecords_ts _ _ r2 hr2mem
  constructor
  · apply consolidate_two_keyOcc
    rw [h1, h2, k1, k2]
    simp only [List.cons_append, List.nil_append, List.foldl_cons, List.foldl_nil,
      keyStep_none]
    exact keyStep_some_of_later r1 r2 t1 t2 hts1 hts2 ht2 hlt
  · apply consolidate_two_keyOcc
    rw [h1, h2, k1, k2]
    simp only [List.cons_append, List.nil_append, List.foldl_cons, List.foldl_nil,
      keyStep_none]
    exact keyStep_keep_of_earlier r1 r2 t1 t2 hts1 hts2 ht2 hlt

/-- Closed instantiation of `C2_last_writer_wins`: two one-record files
sharing `uniqueId = "5-foo.com"`, stamped January and February; the
February record's field values win in both read orders. -/
theorem C2_witness :
    keyOccurrences
      (consolidate
        [⟨"data_chunk_1_2024-01-01T00-00-00-000Z.csv",
          [⟨[("UniqueID", "5-foo.com"), ("Rank", "5"), ("Domain", "foo.com")], none⟩]⟩,
         ⟨"data_chunk_1_2024-02-03T04-05-06-000Z.csv",
          [⟨[("UniqueID", "5-foo.com"), ("Rank", "5"), ("Domain", "foo2.com")], none⟩]⟩])
      "5-foo.com" =
      [stripMeta ⟨[("UniqueID", "5-foo.com"), ("Rank", "5"), ("Domain", "foo2.com")],
        some "2024-02-03T04-05-06"⟩] ∧
    keyOccurrences
      (consolidate
        [⟨"data_chunk_1_2024-02-03T04-05-06-000Z.csv",
          [⟨[("UniqueID", "5-foo.com"), ("Rank", "5"), ("Domain", "foo2.com")], none⟩]⟩,
         ⟨"data_chunk_1_2024-01-01T00-00-00-000Z.csv",
          [⟨[("UniqueID", "5-foo.com"), ("Rank", "5"), ("Domain", "foo.com")], none⟩]⟩])
      "5-foo.com" =
      [stripMeta ⟨[("UniqueID", "5-foo.com"), ("Rank", "5"), ("Domain", "foo2.com")],
        some "2024-02-03T04-05-06"⟩] :=
  C2_last_writer_wins
    "data_chunk_1_2024-01-01T00-00-00-000Z.csv"
    "data_chunk_1_2024-02-03T04-05-06-000Z.csv"
    [⟨[("UniqueID", "5-foo.com"), ("Rank", "5"), ("Domain", "foo.com")], none⟩]
    [⟨[("UniqueID", "5-foo.com"), ("Rank", "5"), ("Domain", "foo2.com")], none⟩]
    "2024-01-01T00-00-00" "2024-02-03T04-05-06"
    ⟨[("UniqueID", "5-foo.com"), ("Rank", "5"), ("Domain", "foo.com")],
      some "2024-01-01T00-00-00"⟩
    ⟨[("UniqueID", "5-foo.com"), ("Rank", "5"), ("Domain", "foo2.com")],
      some "2024-02-03T04-05-06"⟩
    "5-foo.com"
    (by decide) (by decide) (by decide) (by decide) (by decide)

/-- C10: the Consolidator's deduplication key is the record's `UniqueID`
column when present and non-empty, and otherwise the plain concatenation
`Rank + "-" + Domain` with no whitespace normalization; hence a
fallback-derived key (`"12-foo bar.com"`) can differ from the
extraction-time `uniqueId` of the same logical row
(`"12-foo-bar.com"`) when the domain contains whitespace. -/
theorem C10_dedup_key_fallback (r : CsvRecord) :
    (∀ s : String, getField r "UniqueID" = some s → s ≠ "" → dedupKey r = s) ∧
    ((getField r "UniqueID" = none ∨ getField r "UniqueID" = some "") →
      dedupKey r = jsShow (getField r "Rank") ++ "-" ++ jsShow (getField r "Domain")) ∧
    dedupKey ⟨[("Rank", "12"), ("Domain", "foo bar.com")], none⟩ = "12-foo bar.com" ∧
    (extractRow 0 [⟨"12", none, none⟩, ⟨"foo bar.com", none, none⟩] "u" "t").uniqueId =
      "12-foo-bar.com" ∧
    dedupKey ⟨[("Rank", "12"), ("Domain", "foo bar.com")], none⟩ ≠
      (extractRow 0 [⟨"12", none, none⟩, ⟨"foo bar.com", none, none⟩] "u" "t").uniqueId := by
  refine ⟨?_, ?_, by decide, by decide, by decide⟩
  · intro s hs hne
    unfold dedupKey
    rw [hs]
    simp [jsOr, hne]
  · intro h
    unfold dedupKey
    rcases h with h | h <;> rw [h]
    · rfl
    · simp [jsOr]

/-- Closed instantiation of `C10_dedup_key_fallback` at a record with no
`UniqueID` column. -/
theorem C10_witness :
    dedupKey ⟨[("Rank", "12"), ("Domain", "foo bar.com")], none⟩ =
      jsShow (getField ⟨[("Rank", "12"), ("Domain", "foo bar.com")], none⟩ "Rank") ++
        "-" ++ jsShow (getField ⟨[("Rank", "12"), ("Domain", "foo bar.com")], none⟩ "Domain") :=
  (C10_dedup_key_fallback ⟨[("Rank", "12"), ("Domain", "foo bar.com")], none⟩).2.1
    (Or.inl (by decide))
